import Mathlib

/-!
Verification of the champion-record lifecycle of the subleerunker score server
(`src/main.go`, with the legacy `src/subleerunker.go` as a sibling variant).

Modelling conventions:
* Go `time.Time` instants and `time.Duration` values are nanosecond counts
  (`Int`), matching Go's internal representation; `t.Add d = t + d`,
  `t.After u = (u < t)`, `t.Unix = ⌊t / 10^9⌋`.
* Go `int` (64-bit) scores are `Int`; the handler parser enforces the
  `int64` range exactly as `strconv.Atoi` does.
* The Cloud Datastore is a list of entities (kind, numeric key, champion
  payload) plus a fresh-key counter; `IncompleteKey` allocation draws the
  counter.  Ancestor filtering is not modelled: every champion entity in the
  store is taken to live under the single ancestor `champions/_` that the
  code always uses.
* Fallible operations return `Except`-style results paired with the store
  they leave behind; an aborted transaction leaves the store unchanged.
-/

set_option maxRecDepth 16384

/-- `TTL` from main.go line 26: `7 * 24 * time.Hour` in nanoseconds. -/
def TTL : Int := 604800000000000

/-- `Champion` struct, main.go lines 28-36. -/
structure Champion where
  Score : Int
  Name : String
  Replay : String
  Duration : Int
  RecordedAt : Int
  ExpiresIn : Int
  Token : String
deriving DecidableEq, Repr

/-- `Champion.ExpiresAt`, main.go lines 38-40: `RecordedAt.Add(ExpiresIn)`. -/
def Champion.ExpiresAt (c : Champion) : Int := c.RecordedAt + c.ExpiresIn

/-- `Champion.IsExpired`, main.go lines 42-44: `t.After(c.ExpiresAt())`. -/
def Champion.IsExpired (c : Champion) (t : Int) : Bool := decide (c.ExpiresAt < t)

/-- `NoChampion`, main.go line 46: the absent sentinel. -/
def NoChampion : Champion := ⟨0, "", "", 0, 0, 0, ""⟩

/-- `NotHigherScore` error payload, main.go lines 48-51. -/
structure NotHigherScore where
  Score : Int
  PrevScore : Int
deriving DecidableEq, Repr

/-- `(*NotHigherScore).Error()`, main.go lines 53-58. -/
def NotHigherScore.Error (n : NotHigherScore) : String :=
  "score " ++ toString n.Score ++ " is not higher than prev score " ++ toString n.PrevScore

/-- A stored datastore entity: kind, numeric key and champion payload.
`BeatChampion` writes kind `"champions"` (main.go line 241) while the query
reads kind `"champion"` (main.go line 96), so the kind is part of the model. -/
structure Entity where
  kind : String
  key : Nat
  champ : Champion
deriving DecidableEq, Repr

/-- The datastore contents: stored entities plus the next numeric key an
`IncompleteKey` put will be assigned. -/
structure Store where
  entities : List Entity
  nextKey : Nat
deriving DecidableEq, Repr

/-- Datastore result order `Order("-RecordedAt")`: newest first.  Ties are
broken arbitrarily by the store; the model uses a stable insertion sort and
no theorem depends on the tie order. -/
def byNewest (a b : Entity) : Prop := b.champ.RecordedAt ≤ a.champ.RecordedAt

instance : DecidableRel byNewest := fun a b =>
  inferInstanceAs (Decidable (b.champ.RecordedAt ≤ a.champ.RecordedAt))

instance : IsTotal Entity byNewest := ⟨fun a b => le_total b.champ.RecordedAt a.champ.RecordedAt⟩

instance : IsTrans Entity byNewest := ⟨fun _ _ _ h h' => le_trans h' h⟩

/-- The result set of the query in `LoadChampion`, main.go lines 95-98:
kind `"champion"`, `Filter("RecordedAt >", t.Add(-ttl))`,
`Order("-RecordedAt")`, `Limit(10)`. -/
def queryWindow (s : Store) (t ttl : Int) : List Entity :=
  (List.insertionSort byNewest
    (s.entities.filter (fun e => e.kind == "champion" && decide (t - ttl < e.champ.RecordedAt)))).take 10

/-- `LoadChampion`, main.go lines 94-118: iterate the query results newest
first, skip expired rows (`continue`), return the first live one with its
key; when the iterator is done, return `NoChampion` with no key. -/
def LoadChampion (s : Store) (t ttl : Int) : Champion × Option Nat :=
  match (queryWindow s t ttl).find? (fun e => !(e.champ.IsExpired t)) with
  | some e => (e.champ, some e.key)
  | none => (NoChampion, none)

/-- The put at main.go lines 240-243: `IncompleteKey("champions", root)`
allocates a fresh key; note the entity kind is the (misspelled) `"champions"`,
not the `"champion"` kind the query reads. -/
def insertBeat (s : Store) (c : Champion) : Store :=
  ⟨s.entities ++ [⟨"champions", s.nextKey, c⟩], s.nextKey + 1⟩

/-- The `RunInTransaction` body of `BeatChampion`, main.go lines 224-245,
run sequentially: load the previous champion, reject with `NotHigherScore`
when `score <= prevScore` (aborting leaves the store unchanged), otherwise
put the candidate under a fresh key. -/
def BeatChampionTx (s : Store) (t : Int) (cand : Champion) :
    Except NotHigherScore Champion × Store :=
  if cand.Score ≤ (LoadChampion s t TTL).1.Score then
    (Except.error ⟨cand.Score, (LoadChampion s t TTL).1.Score⟩, s)
  else
    (Except.ok cand, insertBeat s cand)

/-- How the rename transaction can fail, main.go lines 275-290. -/
inductive RenameErr where
  | notAuthorized
  /-- When no live champion exists, `LoadChampion` returns a nil key and the
  code still reaches `tx.Put(key, champion)` with that nil key (main.go line
  287); the datastore rejects a nil key (the legacy appengine client returns
  an invalid-key error, the cloud client dereferences the nil pointer), so
  the transaction aborts without writing and without a `NotAuthorized`. -/
  | invalidKeyPut
deriving DecidableEq, Repr

/-- The `RunInTransaction` body of `RenameChampion`, main.go lines 275-290,
run sequentially: load the live champion, deny unless its token equals the
caller's, then overwrite the loaded entity with the name changed.  `name`
is the already-normalized name computed by the handler (main.go line 263). -/
def RenameChampionTx (s : Store) (t : Int) (name token : String) :
    Except RenameErr Champion × Store :=
  if (LoadChampion s t TTL).1.Token ≠ token then
    (Except.error RenameErr.notAuthorized, s)
  else
    match (LoadChampion s t TTL).2 with
    | none => (Except.error RenameErr.invalidKeyPut, s)
    | some k =>
      (Except.ok { (LoadChampion s t TTL).1 with Name := name },
        ⟨s.entities.map (fun e =>
          if e.key = k then { e with champ := { (LoadChampion s t TTL).1 with Name := name } }
          else e),
         s.nextKey⟩)

/-- `NormalizeName`, main.go lines 160-168: uppercase, keep only the letters
`A`-`Z` (the regexp `[A-Z]+` joined), truncate to 3 bytes.  `Char.toUpper`
uppercases exactly the ASCII letters; Go additionally uppercases non-ASCII
runes, but those are discarded by the `[A-Z]` filter in both readings. -/
def NormalizeName (name : String) : String :=
  String.mk (((name.toList.map Char.toUpper).filter
    (fun c => 'A' ≤ c && c ≤ 'Z')).take 3)

/-- The letter table of `SuggestName`, main.go line 171 — verbatim, including
the typo: the 25th letter is a second `W` where `Y` belongs. -/
def suggestLetters : String := "ABCDEFGHIJKLMNOPQRSTUVWXWZ"

/-- `SuggestName`, main.go lines 170-174: pick `letters[r.Int()%len(letters)]`
and repeat it three times.  The random draw `r.Int()` (a non-negative int63)
is passed in as `r`. -/
def SuggestName (r : Nat) : String :=
  let letter := suggestLetters.toList.getD (r % suggestLetters.length) 'A'
  String.mk [letter, letter, letter]

/-- The name actually stored by `BeatChampion`, main.go lines 192-197:
normalize, and substitute the random placeholder when empty. -/
def beatName (rawName : String) (r : Nat) : String :=
  let name := NormalizeName rawName
  if name = "" then SuggestName r else name

/-- `t.Unix()` for an instant measured in nanoseconds: whole seconds since
the epoch, rounding toward negative infinity. -/
def timeUnix (t : Int) : Int := Int.fdiv t 1000000000

/-- `strconv.Atoi` as called at main.go line 180, i.e. `ParseInt(s, 10, 0)`
on a 64-bit platform: an optional sign followed by one or more ASCII decimal
digits and nothing else, with the signed value required to fit in an int64;
every other input (including overflow) is an error. -/
def goAtoi (s : String) : Option Int :=
  let p : Int × List Char :=
    match s.toList with
    | '+' :: rest => (1, rest)
    | '-' :: rest => (-1, rest)
    | cs => (1, cs)
  if p.2.isEmpty || !p.2.all (fun c => '0' ≤ c && c ≤ '9') then none
  else
    let n : Nat := p.2.foldl (fun acc c => 10 * acc + (c.toNat - 48)) 0
    let v : Int := p.1 * n
    if v < -(2 ^ 63) ∨ (2 ^ 63 : Int) ≤ v then none else some v

/-- ASCII lowercasing, Go's `lower` for the byte range this code compares. -/
def asciiLower (c : Char) : Char :=
  if 'A' ≤ c && c ≤ 'Z' then Char.ofNat (c.toNat + 32) else c

def isDigitGo (c : Char) : Bool := '0' ≤ c && c ≤ '9'

def isHexDigitGo (c : Char) : Bool :=
  isDigitGo c || ('a' ≤ c && c ≤ 'f') || ('A' ≤ c && c ≤ 'F')

/-- The value classes `strconv.ParseFloat` can produce.  A finite literal is
kept as its exact rational value: Go rounds it to the nearest `float64`
(overflowing to an infinity), but no claim in this development depends on
the numeric value, only on acceptance. -/
inductive GoFloat where
  | finite (q : ℚ)
  | inf (neg : Bool)
  | nan
deriving DecidableEq

/-- `strconv`'s `special`: "inf"/"infinity" with an optional sign, or an
unsigned "nan", case-insensitively; `ParseFloat` additionally requires the
match to consume the whole string, which the equality checks enforce. -/
def specialFloat (cs : List Char) : Option GoFloat :=
  let p : Bool × Bool × List Char :=
    match cs with
    | '+' :: r => (false, true, r)
    | '-' :: r => (true, true, r)
    | r => (false, false, r)
  let low := p.2.2.map asciiLower
  if low = ['i', 'n', 'f'] ∨ low = ['i', 'n', 'f', 'i', 'n', 'i', 't', 'y'] then
    some (GoFloat.inf p.1)
  else if ¬ p.2.1 ∧ low = ['n', 'a', 'n'] then some GoFloat.nan
  else none

/-- The mantissa loop of `strconv.readFloat`: consume digits, underscores and
at most one dot; return the digits in order, the count of digits seen before
the dot when a dot was seen, and the unconsumed input. -/
def readMantissa (hex : Bool) : List Char → Bool → List Char → Option Nat →
    List Char × Option Nat × List Char
  | [], _, acc, dp => (acc.reverse, dp, [])
  | c :: rest, sawdot, acc, dp =>
    if c = '_' then readMantissa hex rest sawdot acc dp
    else if c = '.' then
      if sawdot then (acc.reverse, dp, c :: rest)
      else readMantissa hex rest true acc (some acc.length)
    else if (if hex then isHexDigitGo c else isDigitGo c) then
      readMantissa hex rest sawdot (c :: acc) dp
    else (acc.reverse, dp, c :: rest)

/-- The exponent-digit loop of `strconv.readFloat`: digits and underscores. -/
def takeDigitsUnd : List Char → List Char × List Char
  | [] => ([], [])
  | c :: r =>
    if isDigitGo c then
      let p := takeDigitsUnd r
      (c :: p.1, p.2)
    else if c = '_' then takeDigitsUnd r
    else ([], c :: r)

def digitVal (c : Char) : Nat :=
  if isDigitGo c then c.toNat - 48
  else if 'a' ≤ c && c ≤ 'f' then c.toNat - 87
  else if 'A' ≤ c && c ≤ 'F' then c.toNat - 55
  else 0

def digitsVal (base : Nat) (ds : List Char) : Nat :=
  ds.foldl (fun acc c => base * acc + digitVal c) 0

/-- The exponent part after the `e`/`E` (or `p`/`P`) marker: an optional
sign, then at least one digit, consuming digits and underscores. -/
def readExpAfterE (cs : List Char) : Option (Int × List Char) :=
  let p : Int × List Char :=
    match cs with
    | '+' :: r => (1, r)
    | '-' :: r => (-1, r)
    | r => (1, r)
  match p.2 with
  | c :: _ =>
    if isDigitGo c then
      let q := takeDigitsUnd p.2
      some (p.1 * (digitsVal 10 q.1 : Nat), q.2)
    else none
  | [] => none

/-- One step of `strconv.underscoreOK`'s scan.  States: 0 after a digit (or
the base prefix), 1 after an underscore, 2 after any other character, 3 at
the start, 4 failed. -/
def underscoreStep (hex : Bool) (saw : Nat) (c : Char) : Nat :=
  if saw = 4 then 4
  else if isDigitGo c || (hex && (('a' ≤ c && c ≤ 'f') || ('A' ≤ c && c ≤ 'F'))) then 0
  else if c = '_' then (if saw = 0 then 1 else 4)
  else if saw = 1 then 4
  else 2

/-- `strconv.underscoreOK`: underscores may only separate digits, with the
base prefix counting as a digit and no trailing underscore. -/
def underscoreOKGo (cs : List Char) : Bool :=
  let cs1 : List Char :=
    match cs with
    | c :: r => if c = '+' ∨ c = '-' then r else cs
    | [] => cs
  let p : Bool × List Char × Nat :=
    match cs1 with
    | '0' :: c :: r =>
      if asciiLower c = 'x' then (true, r, 0)
      else if asciiLower c = 'b' ∨ asciiLower c = 'o' then (false, r, 0)
      else (false, cs1, 3)
    | _ => (false, cs1, 3)
  let final := p.2.1.foldl (underscoreStep p.1) p.2.2
  (final != 1) && (final != 4)

/-- Whether the literal magnitude `mant * b^ex` reaches the bound at which
IEEE-754 round-to-nearest-ties-even sends a float64 to infinity: half an ULP
above the largest finite float64 (`maxFloat64 = 2^1024 - 2^971`, top-binade
ULP `2^971`), i.e. `2^1024 - 2^970`.  A well-formed finite literal at or
beyond it makes `strconv.ParseFloat` return ±Inf together with `ErrRange` —
a non-nil error, which the beat handler treats like any parse failure (400).
The comparison is exact: denominators are cleared so it runs over ℕ. -/
def overflowsFloat64 (b : Nat) (ex : Int) (mant : Nat) : Bool :=
  if 0 ≤ ex then decide (2 ^ 1024 - 2 ^ 970 ≤ mant * b ^ ex.toNat)
  else decide ((2 ^ 1024 - 2 ^ 970) * b ^ (-ex).toNat ≤ mant)

/-- `strconv.ParseFloat(s, 64)` as called at main.go line 186: special
values, else the decimal or hexadecimal literal syntax of `readFloat`
(optional sign, digits with at most one dot and at least one digit, an
optional `e`-exponent for decimal and a mandatory `p`-exponent for hex,
digit-separating underscores), requiring the whole string to be consumed;
a finite literal that would round to infinity fails with `ErrRange`
(modelled as `none`, since the handler only looks at `err != nil`).
Literals below the bound keep their exact rational value (Go rounds to the
nearest float64; underflow rounds toward zero without an error in either
reading). -/
def goParseFloat (s : String) : Option GoFloat :=
  let cs := s.toList
  match specialFloat cs with
  | some f => some f
  | none =>
    let sp : Bool × List Char :=
      match cs with
      | '+' :: r => (true, r)
      | '-' :: r => (true, r)
      | r => (false, r)
    let neg : Bool := cs.headD ' ' == '-'
    let hp : Bool × List Char :=
      match sp.2 with
      | '0' :: c :: r => if c = 'x' ∨ c = 'X' then (true, r) else (false, sp.2)
      | _ => (false, sp.2)
    let hex := hp.1
    let m := readMantissa hex hp.2 false [] none
    let digits := m.1
    let dp := m.2.1
    let rest := m.2.2
    if digits.isEmpty then none
    else
      let expRes : Option (Int × List Char) :=
        match rest with
        | c :: r =>
          if hex && (c = 'p' || c = 'P') then readExpAfterE r
          else if !hex && (c = 'e' || c = 'E') then readExpAfterE r
          else if hex then none
          else some (0, rest)
        | [] => if hex then none else some (0, [])
      match expRes with
      | none => none
      | some (e, rest2) =>
        if !rest2.isEmpty then none
        else if !underscoreOKGo cs then none
        else
          let fracShift : Int := ((dp.getD digits.length : Nat) : Int) - (digits.length : Int)
          -- the magnitude is mant·10^(fracShift+e) for decimal and
          -- mant·16^fracShift·2^e = mant·2^(4·fracShift+e) for hex
          if overflowsFloat64 (if hex then 2 else 10)
              (if hex then 4 * fracShift + e else fracShift + e)
              (digitsVal (if hex then 16 else 10) digits) then none
          else
            let base : ℚ := if hex then 16 else 10
            let expBase : ℚ := if hex then 2 else 10
            let mant : ℚ := (digitsVal (if hex then 16 else 10) digits : ℚ)
            let v : ℚ := mant * base ^ fracShift * expBase ^ e
            some (GoFloat.finite (if neg then -v else v))

/-- `time.Duration(duration * float64(time.Second))`, main.go line 212:
multiply by 10^9 and convert to int64.  The model computes exactly over ℚ
and truncates toward zero where Go rounds through `float64` first; for the
non-finite and overflowing cases Go's conversion is platform-specific (amd64
yields the minimal int64), which the model adopts.  No claim inspects this
value. -/
def durationOfFloat : GoFloat → Int
  | GoFloat.finite q =>
    let p : ℚ := q * 1000000000
    if p < -(2 ^ 63 : ℚ) ∨ (2 ^ 63 : ℚ) ≤ p then -(2 ^ 63)
    else p.num / (p.den : Int)
  | GoFloat.inf _ => -(2 ^ 63)
  | GoFloat.nan => -(2 ^ 63)

/-- The md5 round constants `K[i] = ⌊|sin(i+1)|·2^32⌋` of RFC 1321. -/
def md5K : List Nat :=
  [3614090360, 3905402710, 606105819, 3250441966, 4118548399, 1200080426,
   2821735955, 4249261313, 1770035416, 2336552879, 4294925233, 2304563134,
   1804603682, 4254626195, 2792965006, 1236535329, 4129170786, 3225465664,
   643717713, 3921069994, 3593408605, 38016083, 3634488961, 3889429448,
   568446438, 3275163606, 4107603335, 1163531501, 2850285829, 4243563512,
   1735328473, 2368359562, 4294588738, 2272392833, 1839030562, 4259657740,
   2763975236, 1272893353, 4139469664, 3200236656, 681279174, 3936430074,
   3572445317, 76029189, 3654602809, 3873151461, 530742520, 3299628645,
   4096336452, 1126891415, 2878612391, 4237533241, 1700485571, 2399980690,
   4293915773, 2240044497, 1873313359, 4264355552, 2734768916, 1309151649,
   4149444226, 3174756917, 718787259, 3951481745]

/-- The md5 per-round left-rotation amounts of RFC 1321. -/
def md5S : List Nat :=
  [7, 12, 17, 22, 7, 12, 17, 22, 7, 12, 17, 22, 7, 12, 17, 22,
   5, 9, 14, 20, 5, 9, 14, 20, 5, 9, 14, 20, 5, 9, 14, 20,
   4, 11, 16, 23, 4, 11, 16, 23, 4, 11, 16, 23, 4, 11, 16, 23,
   6, 10, 15, 21, 6, 10, 15, 21, 6, 10, 15, 21, 6, 10, 15, 21]

def mask32 : Nat := 4294967295

def rotl32 (x s : Nat) : Nat := ((x <<< s) ||| (x >>> (32 - s))) &&& mask32

/-- The md5 round function for round `i` on registers `b`, `c`, `d`. -/
def md5F (i b c d : Nat) : Nat :=
  if i < 16 then (b &&& c) ||| ((mask32 ^^^ b) &&& d)
  else if i < 32 then (d &&& b) ||| ((mask32 ^^^ d) &&& c)
  else if i < 48 then b ^^^ c ^^^ d
  else c ^^^ (b ||| (mask32 ^^^ d))

/-- The md5 message-word index for round `i`. -/
def md5G (i : Nat) : Nat :=
  if i < 16 then i
  else if i < 32 then (5 * i + 1) % 16
  else if i < 48 then (3 * i + 5) % 16
  else (7 * i) % 16

/-- The 64 md5 rounds of one block over the 16 message words `m`, from the
standard initial register values. -/
def md5Rounds (m : List Nat) : Nat × Nat × Nat × Nat :=
  (List.range 64).foldl
    (fun st i =>
      let a := st.1
      let b := st.2.1
      let c := st.2.2.1
      let d := st.2.2.2
      let f := (md5F i b c d + a + md5K.getD i 0 + m.getD (md5G i) 0) &&& mask32
      (d, (b + rotl32 f (md5S.getD i 0)) &&& mask32, b, c))
    (1732584193, 4023233417, 2562383102, 271733878)

/-- Little-endian byte decomposition of a 32-bit word. -/
def leBytes32 (x : Nat) : List Nat :=
  [x &&& 255, (x >>> 8) &&& 255, (x >>> 16) &&& 255, (x >>> 24) &&& 255]

/-- `md5.Sum` of a message of fewer than 56 bytes (one padded block):
append `0x80`, zero-pad to 56 bytes, append the bit length as a 64-bit
little-endian count, then run the rounds and add the initial registers. -/
def md5Sum (msg : List Nat) : List Nat :=
  let padded := msg ++ [128] ++ List.replicate (55 - msg.length) 0
      ++ leBytes32 ((8 * msg.length) &&& mask32) ++ leBytes32 ((8 * msg.length) >>> 32)
  let words := (List.range 16).map (fun j =>
    (padded.getD (4 * j) 0) ||| ((padded.getD (4 * j + 1) 0) <<< 8)
      ||| ((padded.getD (4 * j + 2) 0) <<< 16) ||| ((padded.getD (4 * j + 3) 0) <<< 24))
  let st := md5Rounds words
  leBytes32 ((st.1 + 1732584193) &&& mask32)
    ++ leBytes32 ((st.2.1 + 4023233417) &&& mask32)
    ++ leBytes32 ((st.2.2.1 + 2562383102) &&& mask32)
    ++ leBytes32 ((st.2.2.2 + 271733878) &&& mask32)

def hexDigitChar (n : Nat) : Char :=
  if n < 10 then Char.ofNat (48 + n) else Char.ofNat (87 + n)

/-- `hex.EncodeToString`: lowercase hex, two digits per byte. -/
def hexEncode (bs : List Nat) : String :=
  String.mk ((bs.map (fun b => [hexDigitChar (b / 16), hexDigitChar (b % 16)])).flatten)

/-- The zigzag step of `binary.PutVarint`: `ux := uint64(x) << 1`, negated
bitwise when `x < 0`, i.e. `n ≥ 0 ↦ 2n` and `n < 0 ↦ -2n - 1` (mod 2^64). -/
def zigzag (seed : Int) : Nat :=
  if 0 ≤ seed then (2 * seed).toNat % 2 ^ 64 else (-2 * seed - 1).toNat % 2 ^ 64

/-- `binary.PutUvarint`'s byte groups: little-endian 7-bit groups, each byte
but the last carrying a continuation bit. -/
def varintBytes (ux : Nat) : List Nat :=
  if ux < 128 then [ux]
  else (ux % 128 + 128) :: varintBytes (ux / 128)
decreasing_by exact Nat.div_lt_self (by omega) (by omega)

/-- `IssueToken`, main.go lines 67-72: `PutVarint` the seed into an 8-byte
zero-initialized buffer, md5 the whole buffer, hex-encode.  (`PutVarint`
would overflow the 8-byte buffer only for |seed| ≥ 2^55; every caller passes
a Unix-second count, far inside that range, and the model truncates instead
of panicking there.) -/
def IssueToken (seed : Int) : String :=
  hexEncode (md5Sum ((varintBytes (zigzag seed) ++ List.replicate 8 0).take 8))

/-- HTTP outcome of the beat handler (main.go lines 177-256): 400 for a
malformed numeric field, 500 carrying the error text when the transaction
fails, 200 with the authorized view of the committed record otherwise. -/
inductive BeatOutcome where
  | ok (c : Champion)
  | badRequest
  | internalError (msg : String)
deriving DecidableEq, Repr

/-- `BeatChampion`, main.go lines 177-256, as a function of the request's
form fields, the current instant `t` and the random draw `r`: parse `score`
(400 on error, before any store access), parse `duration` (likewise), compute
the stored name, build the candidate with `RecordedAt = t`, `ExpiresIn = TTL`
and `Token = IssueToken(t.Unix())`, then run the transaction body. -/
def BeatChampion (s : Store) (t : Int) (scoreField durationField name replay : String)
    (r : Nat) : BeatOutcome × Store :=
  match goAtoi scoreField with
  | none => (BeatOutcome.badRequest, s)
  | some score =>
    match goParseFloat durationField with
    | none => (BeatOutcome.badRequest, s)
    | some dur =>
      let champion : Champion :=
        { Score := score, Name := beatName name r, Replay := replay,
          Duration := durationOfFloat dur, RecordedAt := t, ExpiresIn := TTL,
          Token := IssueToken (timeUnix t) }
      match BeatChampionTx s t champion with
      | (Except.error e, s') => (BeatOutcome.internalError e.Error, s')
      | (Except.ok c, s') => (BeatOutcome.ok c, s')

/-- HTTP outcome of the rename handler: 401, 500, or 200 with the view. -/
inductive RenameOutcome where
  | ok (c : Champion)
  | unauthorized
  | internalError
deriving DecidableEq, Repr

/-- `RenameChampion`, main.go lines 259-303: normalize the name (with no
empty-name placeholder here, unlike the beat handler), take the basic-auth
password as the token, run the transaction body; a `NotAuthorized` failure
maps to 401 and every other failure to 500. -/
def RenameChampion (s : Store) (t : Int) (name token : String) : RenameOutcome × Store :=
  match RenameChampionTx s t (NormalizeName name) token with
  | (Except.error RenameErr.notAuthorized, s') => (RenameOutcome.unauthorized, s')
  | (Except.error RenameErr.invalidKeyPut, s') => (RenameOutcome.internalError, s')
  | (Except.ok c, s') => (RenameOutcome.ok c, s')

/-- The response body of `GetChampion`, main.go lines 129-141. -/
structure PublicView where
  score : Int
  name : String
  replay : String
  expiresAt : Int
  authorized : Bool
deriving DecidableEq, Repr

/-- `GetChampion`, main.go lines 121-142: resolve the live champion at `t`
and report it together with
`authorized = (token != "" && token == champion.Token)`.  The handler is
read-only: it never produces a store. -/
def GetChampion (s : Store) (t : Int) (token : String) : PublicView :=
  ⟨(LoadChampion s t TTL).1.Score, (LoadChampion s t TTL).1.Name,
    (LoadChampion s t TTL).1.Replay, (LoadChampion s t TTL).1.ExpiresAt,
    token != "" && token == (LoadChampion s t TTL).1.Token⟩

/-- Two overlapping beat transactions as main.go actually admits them: the
`LoadChampion` call inside `RunInTransaction` (line 225) opens its own fresh
client (line 100) and queries outside the transaction, so both reads can
observe the initial store before either commit, and the two transactions —
each containing only a blind insert under a fresh key (lines 240-243) — do
not conflict and both commit.  The interleaving modelled is
read₁, read₂, commit₁, commit₂. -/
def overlappedBeats (s : Store) (t1 t2 : Int) (c1 c2 : Champion) :
    Option NotHigherScore × Option NotHigherScore × Store :=
  let prev1 := (LoadChampion s t1 TTL).1
  let prev2 := (LoadChampion s t2 TTL).1
  let e1 : Option NotHigherScore :=
    if c1.Score ≤ prev1.Score then some ⟨c1.Score, prev1.Score⟩ else none
  let s1 := if e1.isNone then insertBeat s c1 else s
  let e2 : Option NotHigherScore :=
    if c2.Score ≤ prev2.Score then some ⟨c2.Score, prev2.Score⟩ else none
  let s2 := if e2.isNone then insertBeat s1 c2 else s1
  (e1, e2, s2)

-- Quick sanity examples (kept as `example`, they name no claim).
example : goParseFloat "1e400" = none := by decide
example : goParseFloat "2e308" = none := by decide
example : goParseFloat "-1e400" = none := by decide
example : (goParseFloat "1.7976931348623157e308").isSome = true := by decide
example : (goParseFloat "1e-400").isSome = true := by decide
example : NormalizeName "hello123!!" = "HEL" := by decide
example : NormalizeName "123" = "" := by decide
example : SuggestName 0 = "AAA" := by decide
example : LoadChampion ⟨[], 0⟩ 5 TTL = (NoChampion, none) := rfl
example :
    LoadChampion ⟨[⟨"champion", 3, ⟨7, "AAA", "", 0, 100, TTL, "tk"⟩⟩], 4⟩ 200 TTL
      = (⟨7, "AAA", "", 0, 100, TTL, "tk"⟩, some 3) := by decide

/-! ## Theorems for the claims -/

/-- When `LoadChampion` resolves no key, the champion it returns is the
absent sentinel. -/
theorem LoadChampion_fst_of_snd_none (s : Store) (t ttl : Int)
    (h : (LoadChampion s t ttl).2 = none) : (LoadChampion s t ttl).1 = NoChampion := by
  unfold LoadChampion at h ⊢
  cases hf : (queryWindow s t ttl).find? (fun e => !(e.champ.IsExpired t)) with
  | none => rfl
  | some e => rw [hf] at h; simp at h

/-- C1: the beat transaction persists the candidate record iff the submitted
score strictly exceeds the resolved live champion's score (the sentinel's 0
when none is live); when it does not, the transaction fails with
`NotHigherScore` carrying the submitted and previous scores and the store is
left completely unchanged. -/
theorem C1_beat_commits_iff_strictly_higher (s : Store) (t : Int) (cand : Champion) :
    ((∃ out, (BeatChampionTx s t cand).1 = Except.ok out) ↔
      (LoadChampion s t TTL).1.Score < cand.Score)
    ∧ ((LoadChampion s t TTL).1.Score < cand.Score →
        BeatChampionTx s t cand = (Except.ok cand, insertBeat s cand))
    ∧ (cand.Score ≤ (LoadChampion s t TTL).1.Score →
        BeatChampionTx s t cand
          = (Except.error ⟨cand.Score, (LoadChampion s t TTL).1.Score⟩, s)) := by
  unfold BeatChampionTx
  by_cases h : cand.Score ≤ (LoadChampion s t TTL).1.Score
  · rw [if_pos h]
    refine ⟨⟨fun hex => ?_, fun hlt => absurd hlt (not_lt.mpr h)⟩,
      fun hlt => absurd hlt (not_lt.mpr h), fun _ => rfl⟩
    obtain ⟨out, hout⟩ := hex
    simp at hout
  · rw [if_neg h]
    exact ⟨⟨fun _ => not_le.mp h, fun _ => ⟨cand, rfl⟩⟩, fun _ => rfl,
      fun hle => absurd hle h⟩

def c1Store : Store := ⟨[⟨"champion", 0, ⟨7, "AAA", "rp", 0, 100, TTL, "tk"⟩⟩], 1⟩

/-- C1 witness: a concrete rejected submission (score 5 against a live 7). -/
theorem C1_beat_commits_iff_strictly_higher_w :
    BeatChampionTx c1Store 200 ⟨5, "BBB", "", 0, 200, TTL, "tk2"⟩
      = (Except.error ⟨5, (LoadChampion c1Store 200 TTL).1.Score⟩, c1Store) :=
  (C1_beat_commits_iff_strictly_higher c1Store 200 ⟨5, "BBB", "", 0, 200, TTL, "tk2"⟩).2.2
    (by decide)

/-- C3: at the failing input — no live champion and the empty caller token —
the rename handler does not answer 401/`NotAuthorized`: the empty token
equals the absent sentinel's empty token, so the guard at main.go line 282
passes and the code reaches `tx.Put` with the nil key, failing as a storage
error (500).  A non-empty token does get 401.  No write occurs either way. -/
theorem C3_rename_empty_token_no_live :
    RenameChampion ⟨[], 0⟩ 0 "abc" "" = (RenameOutcome.internalError, ⟨[], 0⟩)
    ∧ RenameChampion ⟨[], 0⟩ 0 "abc" "x" = (RenameOutcome.unauthorized, ⟨[], 0⟩) := by
  exact ⟨by decide, by decide⟩

def c4Beat60 : Champion := ⟨60, "AAA", "", 0, 1000, TTL, ""⟩
def c4Beat50 : Champion := ⟨50, "BBB", "", 0, 2000, TTL, ""⟩
def c4Final : Store := ⟨[⟨"champions", 0, c4Beat60⟩, ⟨"champions", 1, c4Beat50⟩], 2⟩

/-- C4: two overlapping beat submissions (scores 60 then 50) on the empty
store, with both non-transactional reads preceding either commit, BOTH
commit: neither is rejected with `NotHigherScore`, two records are written,
and the final live-champion resolution still returns the absent sentinel
with score 0 — not max(60, 50) — because the committed entities carry kind
"champions" while the query reads kind "champion". -/
theorem C4_overlapping_beats_both_commit :
    overlappedBeats ⟨[], 0⟩ 1000 2000 c4Beat60 c4Beat50 = (none, none, c4Final)
    ∧ (LoadChampion c4Final 3000 TTL).1.Score = 0
    ∧ c4Final.entities.length = 2 := by
  exact ⟨by decide, by decide, by decide⟩

/-- C6: normalization behaves as claimed (`"hello123!!"` yields `"HEL"`),
but the placeholder letter table is the misspelled
`"ABCDEFGHIJKLMNOPQRSTUVWXWZ"`: the placeholder `"YYY"` can never be drawn,
while the draws at indices 22 and 24 both yield `"WWW"`, so the letter is
not uniform over the 26-letter alphabet and `Y` is impossible. -/
theorem C6_placeholder_table_typo :
    NormalizeName "hello123!!" = "HEL"
    ∧ (∀ r : Nat, SuggestName r ≠ "YYY")
    ∧ SuggestName 22 = "WWW" ∧ SuggestName 24 = "WWW" := by
  refine ⟨by decide, ?_, by decide, by decide⟩
  intro r
  have h26 : r % 26 < 26 := Nat.mod_lt r (by decide)
  simp only [SuggestName]
  have hlen : suggestLetters.length = 26 := by decide
  rw [hlen]
  generalize hm : r % 26 = m
  rw [hm] at h26
  interval_cases m <;> decide

/-- Membership in the base filter of `LoadChampion`'s query. -/
theorem mem_queryFilter {s : Store} {t ttl : Int} {e : Entity} :
    e ∈ s.entities.filter
        (fun e => e.kind == "champion" && decide (t - ttl < e.champ.RecordedAt)) ↔
      e ∈ s.entities ∧ e.kind = "champion" ∧ t - ttl < e.champ.RecordedAt := by
  simp [List.mem_filter, and_assoc]

def c2Entity : Entity := ⟨"champion", 1, ⟨9, "AAA", "", 0, 0, TTL, "tk"⟩⟩
def c2Store : Store := ⟨[c2Entity], 2⟩

/-- C2 counterexample: a stored record with `recordedAt = 0`, `ttl = 7d`,
queried at the boundary instant `t = expiresAt = 7d`, is live by the claim's
definition (`t ≤ expiresAt`; the code's own `IsExpired` agrees), yet
`LoadChampion` returns the absent sentinel: the query filter
`RecordedAt > t - ttl` is strict and already excludes the boundary row. -/
theorem C2_load_boundary_cex :
    TTL ≤ c2Entity.champ.ExpiresAt
    ∧ c2Entity.champ.IsExpired TTL = false
    ∧ LoadChampion c2Store TTL TTL = (NoChampion, none) := by
  exact ⟨by decide, by decide, by decide⟩

/-- C2 (amended): over stores whose champion records all carry the queried
`ttl` (as every record this code writes does), `LoadChampion` returns a
stored record iff some stored champion record is strictly live
(`t < recordedAt + ttl`, i.e. `t < expiresAt`; the boundary `t = expiresAt`
counts as absent because the query filter `RecordedAt > t - ttl` is strict),
and the returned record is a stored one, strictly live, with maximal
`RecordedAt` among the strictly live; otherwise it returns the absent
sentinel (score 0, empty name, empty token, zero timestamps) and no key. -/
theorem C2_load_newest_strictly_live (s : Store) (t ttl : Int)
    (h : ∀ e ∈ s.entities, e.kind = "champion" → e.champ.ExpiresIn = ttl) :
    (∀ c k, LoadChampion s t ttl = (c, some k) →
        (∃ e ∈ s.entities, e.kind = "champion" ∧ e.key = k ∧ e.champ = c)
        ∧ t < c.ExpiresAt
        ∧ ∀ e ∈ s.entities, e.kind = "champion" → t < e.champ.ExpiresAt →
            e.champ.RecordedAt ≤ c.RecordedAt)
    ∧ (LoadChampion s t ttl = (NoChampion, none) ↔
        ∀ e ∈ s.entities, e.kind = "champion" → ¬ t < e.champ.ExpiresAt) := by
  classical
  set F := s.entities.filter
      (fun e => e.kind == "champion" && decide (t - ttl < e.champ.RecordedAt)) with hF
  have hperm : List.Perm (List.insertionSort byNewest F) F := List.perm_insertionSort _ _
  have hsorted : List.Sorted byNewest (List.insertionSort byNewest F) :=
    List.sorted_insertionSort _ _
  have hexp : ∀ e ∈ s.entities, e.kind = "champion" →
      e.champ.ExpiresAt = e.champ.RecordedAt + ttl := by
    intro e he hk
    unfold Champion.ExpiresAt
    rw [h e he hk]
  have hlive : ∀ e ∈ F, e ∈ s.entities ∧ e.kind = "champion" ∧ t < e.champ.ExpiresAt := by
    intro e he
    have hm := mem_queryFilter.mp (hF ▸ he)
    refine ⟨hm.1, hm.2.1, ?_⟩
    rw [hexp e hm.1 hm.2.1]
    omega
  have hintoF : ∀ e ∈ s.entities, e.kind = "champion" → t < e.champ.ExpiresAt → e ∈ F := by
    intro e he hk hlt
    rw [hexp e he hk] at hlt
    exact hF ▸ mem_queryFilter.mpr ⟨he, hk, by omega⟩
  cases hS : List.insertionSort byNewest F with
  | nil =>
    have hFnil : F = [] := ((hS ▸ hperm).nil_eq).symm
    have hload : LoadChampion s t ttl = (NoChampion, none) := by
      unfold LoadChampion queryWindow
      rw [← hF, hS]
      rfl
    refine ⟨?_, ?_⟩
    · intro c k heq
      rw [hload] at heq
      exact absurd (congrArg Prod.snd heq) (by simp)
    · refine ⟨fun _ => ?_, fun _ => hload⟩
      intro e he hk hlt
      have : e ∈ F := hintoF e he hk hlt
      rw [hFnil] at this
      exact absurd this (List.not_mem_nil e)
  | cons e0 rest =>
    have he0F : e0 ∈ F := (hS ▸ hperm).mem_iff.mp (List.mem_cons_self e0 rest)
    have he0 := hlive e0 he0F
    have hq0 : (!(e0.champ.IsExpired t)) = true := by
      simp only [Champion.IsExpired, Bool.not_eq_true']
      simpa using not_lt.mpr (le_of_lt he0.2.2)
    have hwin : queryWindow s t ttl = e0 :: rest.take 9 := by
      unfold queryWindow
      rw [← hF, hS]
      rfl
    have hfind : List.find? (fun e => !(e.champ.IsExpired t)) (e0 :: List.take 9 rest)
        = some e0 := List.find?_cons_of_pos _ hq0
    have hload : LoadChampion s t ttl = (e0.champ, some e0.key) := by
      unfold LoadChampion
      rw [hwin, hfind]
    refine ⟨?_, ?_⟩
    · intro c k heq
      rw [hload] at heq
      have hc : e0.champ = c := congrArg Prod.fst heq
      have hk : e0.key = k := by
        have h2 := congrArg Prod.snd heq
        simpa using h2
      refine ⟨⟨e0, he0.1, he0.2.1, hk, hc⟩, hc ▸ he0.2.2, ?_⟩
      intro e he hke hlt
      have heS : e ∈ e0 :: rest := (List.Perm.mem_iff (hS ▸ hperm)).mpr (hintoF e he hke hlt)
      rw [← hc]
      rcases List.mem_cons.mp heS with he0eq | herest
      · rw [he0eq]
      · exact List.rel_of_sorted_cons (hS ▸ hsorted) e herest
    · constructor
      · intro heq
        rw [hload] at heq
        exact absurd (congrArg Prod.snd heq) (by simp)
      · intro hall
        exact absurd he0.2.2 (hall e0 he0.1 he0.2.1)

/-- C2 witness: the amended theorem applied to the empty store. -/
theorem C2_load_newest_strictly_live_w :
    LoadChampion (⟨[], 0⟩ : Store) 7 TTL = (NoChampion, none) :=
  ((C2_load_newest_strictly_live ⟨[], 0⟩ 7 TTL (by simp)).2).mpr (by simp)

/-- What a successful rename did: the live champion was resolved with a key,
its token matched the caller's, the returned record is that champion with
only the name replaced by the normalized input, and the store holds the
updated entity under the same key, every other entity untouched. -/
theorem RenameChampion_ok_spec (s : Store) (t : Int) (raw tok : String)
    (c' : Champion) (s' : Store)
    (h : RenameChampion s t raw tok = (RenameOutcome.ok c', s')) :
    ∃ c k, LoadChampion s t TTL = (c, some k) ∧ c.Token = tok
      ∧ c' = { c with Name := NormalizeName raw }
      ∧ s' = ⟨s.entities.map (fun e => if e.key = k then { e with champ := c' } else e),
              s.nextKey⟩ := by
  by_cases htok : (LoadChampion s t TTL).1.Token ≠ tok
  · have htx : RenameChampionTx s t (NormalizeName raw) tok
        = (Except.error RenameErr.notAuthorized, s) := by
      unfold RenameChampionTx
      rw [if_pos htok]
    unfold RenameChampion at h
    rw [htx] at h
    simp at h
  · push_neg at htok
    cases hk : (LoadChampion s t TTL).2 with
    | none =>
      have htx : RenameChampionTx s t (NormalizeName raw) tok
          = (Except.error RenameErr.invalidKeyPut, s) := by
        unfold RenameChampionTx
        rw [if_neg (not_not_intro htok), hk]
      unfold RenameChampion at h
      rw [htx] at h
      simp at h
    | some k =>
      have htx : RenameChampionTx s t (NormalizeName raw) tok
          = (Except.ok { (LoadChampion s t TTL).1 with Name := NormalizeName raw },
            ⟨s.entities.map (fun e =>
              if e.key = k then
                { e with champ := { (LoadChampion s t TTL).1 with Name := NormalizeName raw } }
              else e),
             s.nextKey⟩) := by
        unfold RenameChampionTx
        rw [if_neg (not_not_intro htok), hk]
      unfold RenameChampion at h
      rw [htx] at h
      simp only [RenameOutcome.ok.injEq, Prod.mk.injEq] at h
      obtain ⟨hc, hs⟩ := h
      refine ⟨(LoadChampion s t TTL).1, k, ?_, htok, hc.symm, ?_⟩
      · rw [← hk]
      · rw [← hs, ← hc]

/-- C5: a successful rename changes only the name: score, replay blob,
duration, recordedAt, ttl and token are identical to the resolved live
champion's before the rename, the stored entity keeps its key, no other
entity changes, and the returned authorized view carries the unchanged
token. -/
theorem C5_rename_changes_only_name (s : Store) (t : Int) (raw tok : String)
    (c' : Champion) (s' : Store)
    (h : RenameChampion s t raw tok = (RenameOutcome.ok c', s')) :
    ∃ c k, LoadChampion s t TTL = (c, some k) ∧ c.Token = tok
      ∧ c'.Score = c.Score ∧ c'.Replay = c.Replay ∧ c'.Duration = c.Duration
      ∧ c'.RecordedAt = c.RecordedAt ∧ c'.ExpiresIn = c.ExpiresIn ∧ c'.Token = c.Token
      ∧ c'.Name = NormalizeName raw
      ∧ s'.entities = s.entities.map
          (fun e => if e.key = k then { e with champ := c' } else e)
      ∧ s'.nextKey = s.nextKey := by
  obtain ⟨c, k, hL, htok, hc, hs⟩ := RenameChampion_ok_spec s t raw tok c' s' h
  subst hc
  subst hs
  exact ⟨c, k, hL, htok, rfl, rfl, rfl, rfl, rfl, rfl, rfl, rfl, rfl⟩

def c5Champ : Champion := ⟨9, "AAA", "rp", 4, 100, TTL, "tok"⟩
def c5Store : Store := ⟨[⟨"champion", 3, c5Champ⟩], 4⟩
def c5Renamed : Champion := ⟨9, "ZED", "rp", 4, 100, TTL, "tok"⟩
def c5StoreAfter : Store := ⟨[⟨"champion", 3, c5Renamed⟩], 4⟩

/-- C5 witness: a concrete successful rename ("zed" with the right token). -/
theorem C5_rename_changes_only_name_w :
    ∃ c k, LoadChampion c5Store 200 TTL = (c, some k) ∧ c.Token = "tok"
      ∧ c5Renamed.Score = c.Score ∧ c5Renamed.Replay = c.Replay
      ∧ c5Renamed.Duration = c.Duration ∧ c5Renamed.RecordedAt = c.RecordedAt
      ∧ c5Renamed.ExpiresIn = c.ExpiresIn ∧ c5Renamed.Token = c.Token
      ∧ c5Renamed.Name = NormalizeName "zed"
      ∧ c5StoreAfter.entities = c5Store.entities.map
          (fun e => if e.key = k then { e with champ := c5Renamed } else e)
      ∧ c5StoreAfter.nextKey = c5Store.nextKey :=
  C5_rename_changes_only_name c5Store 200 "zed" "tok" c5Renamed c5StoreAfter (by decide)

def c7Champ : Champion := ⟨9, "ABC", "rp", 0, 100, TTL, "tok"⟩
def c7Store : Store := ⟨[⟨"champion", 1, c7Champ⟩], 2⟩
def c7Renamed : Champion := ⟨9, "", "rp", 0, 100, TTL, "tok"⟩

/-- C7 counterexample: renaming the live champion with raw name "123" (which
normalizes to the empty string) succeeds and stores the EMPTY name: the
rename path applies no placeholder substitution. -/
theorem C7_rename_no_placeholder_cex :
    NormalizeName "123" = ""
    ∧ (RenameChampion c7Store 200 "123" "tok").1 = RenameOutcome.ok c7Renamed
    ∧ c7Renamed.Name = "" := by
  exact ⟨by decide, by decide, by decide⟩

/-- The random placeholder is three letters, never empty. -/
theorem SuggestName_ne_empty (r : Nat) : SuggestName r ≠ "" := by
  intro h
  have h2 : (SuggestName r).data = [] := by rw [h]
  simp [SuggestName] at h2

/-- C7 (amended): a successful rename stores exactly the normalized raw name
— the empty string when the input contains no letters — so the non-empty
display-name guarantee holds only for the beat path, whose stored name
(normalized, or the random placeholder when empty) is never empty. -/
theorem C7_rename_stores_normalized (s : Store) (t : Int) (raw tok : String)
    (c' : Champion) (s' : Store)
    (h : RenameChampion s t raw tok = (RenameOutcome.ok c', s')) :
    c'.Name = NormalizeName raw
    ∧ ∀ (raw2 : String) (r : Nat), beatName raw2 r ≠ "" := by
  obtain ⟨c, k, _, _, hc, _⟩ := RenameChampion_ok_spec s t raw tok c' s' h
  refine ⟨by rw [hc], ?_⟩
  intro raw2 r
  unfold beatName
  by_cases hempty : NormalizeName raw2 = ""
  · rw [if_pos hempty]
    exact SuggestName_ne_empty r
  · rw [if_neg hempty]
    exact hempty

/-- C7 witness: the amended theorem at the concrete rename of C7's
counterexample input. -/
theorem C7_rename_stores_normalized_w :
    c7Renamed.Name = NormalizeName "123"
    ∧ ∀ (raw2 : String) (r : Nat), beatName raw2 r ≠ "" :=
  C7_rename_stores_normalized c7Store 200 "123" "tok" c7Renamed
    ⟨[⟨"champion", 1, c7Renamed⟩], 2⟩ (by decide)

/-- C8: on `PUT /champion` invoking beat, a `score` field that does not
parse as an integer — or a `duration` field that does not parse as a float —
is answered 400 with the store untouched (the handler returns before any
store access: the refusal and the returned store are the same for every
store); a well-formed submission whose score does not exceed the resolved
champion's is answered 500 carrying `NotHigherScore`'s message, not 400. -/
theorem C8_beat_http_statuses (s : Store) (t : Int) (sf df nm rp : String) (r : Nat) :
    (goAtoi sf = none → BeatChampion s t sf df nm rp r = (BeatOutcome.badRequest, s))
    ∧ (goParseFloat df = none → BeatChampion s t sf df nm rp r = (BeatOutcome.badRequest, s))
    ∧ (∀ score, goAtoi sf = some score → (goParseFloat df).isSome = true →
        score ≤ (LoadChampion s t TTL).1.Score →
        BeatChampion s t sf df nm rp r
          = (BeatOutcome.internalError
              (NotHigherScore.Error ⟨score, (LoadChampion s t TTL).1.Score⟩), s)) := by
  refine ⟨fun h1 => ?_, fun h2 => ?_, fun score h1 h2 hle => ?_⟩
  · simp only [BeatChampion, h1]
  · cases ha : goAtoi sf with
    | none => simp only [BeatChampion, ha]
    | some sc => simp only [BeatChampion, ha, h2]
  · obtain ⟨dur, hdur⟩ := Option.isSome_iff_exists.mp h2
    simp only [BeatChampion, h1, hdur]
    unfold BeatChampionTx
    rw [if_pos hle]

/-- C8 witness: a well-formed rejected submission (score 0 against the empty
store's sentinel 0) is answered 500 with `NotHigherScore`'s message. -/
theorem C8_beat_http_statuses_w :
    BeatChampion ⟨[], 0⟩ 0 "0" "1.5" "" "" 0
      = (BeatOutcome.internalError
          (NotHigherScore.Error ⟨0, (LoadChampion (⟨[], 0⟩ : Store) 0 TTL).1.Score⟩),
         (⟨[], 0⟩ : Store)) :=
  (C8_beat_http_statuses ⟨[], 0⟩ 0 "0" "1.5" "" "" 0).2.2 0 (by decide) (by decide) (by decide)

/-- C9: `GetChampion` is read-only (it is a pure function of the store) and
its `authorized` flag is true iff the caller token is non-empty and equal to
the resolved record's token; when no live champion resolves, the flag is
false for every caller token, the empty one included, because the absent
sentinel's token is the empty string. -/
theorem C9_get_authorized_flag (s : Store) (t : Int) (tok : String) :
    ((GetChampion s t tok).authorized = true ↔
      tok ≠ "" ∧ tok = (LoadChampion s t TTL).1.Token)
    ∧ ((LoadChampion s t TTL).2 = none → (GetChampion s t tok).authorized = false) := by
  constructor
  · simp [GetChampion]
  · intro hnone
    have hfst := LoadChampion_fst_of_snd_none s t TTL hnone
    show (tok != "" && tok == (LoadChampion s t TTL).1.Token) = false
    rw [hfst]
    show (tok != "" && tok == "") = false
    cases htok : (tok == "") with
    | true => simp [bne, htok]
    | false => simp [bne, htok]

/-- C9 witness: on the empty store no champion resolves, and even caller
token "zz" is not authorized. -/
theorem C9_get_authorized_flag_w :
    (GetChampion (⟨[], 0⟩ : Store) 5 "zz").authorized = false :=
  (C9_get_authorized_flag ⟨[], 0⟩ 5 "zz").2 (by decide)

/-- C10: the issued token depends only on the whole-second part of the
creation instant: equal Unix seconds give equal tokens; every record the
beat handler commits at instant `t1` carries `IssueToken(t1.Unix())`, which
equals the token of a record created at any `t2` in the same second; and a
caller holding the token issued for `t1` successfully renames a live
champion whose token was issued for `t2`. -/
theorem C10_token_unix_second (t1 t2 : Int) (h : timeUnix t1 = timeUnix t2) :
    IssueToken (timeUnix t1) = IssueToken (timeUnix t2)
    ∧ (∀ (s : Store) (sf df nm rp : String) (r : Nat) (c : Champion) (s' : Store),
        BeatChampion s t1 sf df nm rp r = (BeatOutcome.ok c, s') →
        c.Token = IssueToken (timeUnix t2))
    ∧ (∀ (s : Store) (t : Int) (raw : String) (c : Champion) (k : Nat),
        LoadChampion s t TTL = (c, some k) → c.Token = IssueToken (timeUnix t2) →
        (RenameChampion s t raw (IssueToken (timeUnix t1))).1
          = RenameOutcome.ok { c with Name := NormalizeName raw }) := by
  have htok : IssueToken (timeUnix t1) = IssueToken (timeUnix t2) := by rw [h]
  refine ⟨htok, ?_, ?_⟩
  · intro s sf df nm rp r c s' hbeat
    cases ha : goAtoi sf with
    | none => simp [BeatChampion, ha] at hbeat
    | some score =>
      cases hd : goParseFloat df with
      | none => simp [BeatChampion, ha, hd] at hbeat
      | some dur =>
        simp only [BeatChampion, ha, hd] at hbeat
        unfold BeatChampionTx at hbeat
        by_cases hle : score ≤ (LoadChampion s t1 TTL).1.Score
        · rw [if_pos hle] at hbeat
          simp at hbeat
        · rw [if_neg hle] at hbeat
          simp only [Prod.mk.injEq, BeatOutcome.ok.injEq] at hbeat
          rw [← hbeat.1, htok]
  · intro s t raw c k hL htk
    have h1 : (LoadChampion s t TTL).1 = c := congrArg Prod.fst hL
    have h2 : (LoadChampion s t TTL).2 = some k := congrArg Prod.snd hL
    have hcond : ¬ (LoadChampion s t TTL).1.Token ≠ IssueToken (timeUnix t1) := by
      rw [h1, htk]
      exact fun hne => hne htok.symm
    unfold RenameChampion RenameChampionTx
    rw [if_neg hcond, h2, h1]

/-- C10 witness: two instants inside the same Unix second (their
nanosecond-precision values differ) issue the same token. -/
theorem C10_token_unix_second_w :
    IssueToken (timeUnix 1700000000123456789) = IssueToken (timeUnix 1700000000987654321) :=
  (C10_token_unix_second 1700000000123456789 1700000000987654321 (by decide)).1
